import Mathlib

/-!
Shallow embedding of the numerical core of `streamlit_ode_demo.py`
(ODE step-size demo: explicit/implicit Euler for dC/dt = -k·C, plus
accuracy/stability diagnostics), with proofs about its behaviour.

Real numbers of the source are modelled as rationals; a trajectory
value is `Option ℚ`, where `none` models the `nan` marker the code
writes into the value array on divergence.
-/

set_option autoImplicit false

namespace OdeDemo

/-- Model of `np.linspace a b num`: `num` uniformly spaced samples from `a` to `b`
inclusive; `[a]` when `num = 1`, `[]` when `num = 0`. -/
def linspace (a b : ℚ) (num : ℕ) : List ℚ :=
  if num = 0 then []
  else if num = 1 then [a]
  else (List.range num).map (fun i : ℕ => a + (i : ℚ) * ((b - a) / ((num : ℚ) - 1)))

/-- Step count `n_steps = int(t_max / h) + 1` (line 73/89; Python `int` truncation
agrees with the floor for the nonnegative quotients used here). -/
def n_steps (h t_max : ℚ) : ℕ :=
  (⌊t_max / h⌋).toNat + 1

/-- The loop of `generate_explicit_euler` (lines 78–83), producing entries
`C[1] … C[steps]`: each new value is `C[i] + h·(-k·C[i])`; as soon as a new
value has magnitude above 1000, it and the whole remaining tail are
overwritten with the `nan` marker (`none`) and the loop stops. -/
def explicit_loop (h k : ℚ) : ℚ → ℕ → List (Option ℚ)
  | _, 0 => []
  | c, m + 1 =>
      let c2 := c + h * (-k * c)
      if 1000 < |c2| then List.replicate (m + 1) none
      else some c2 :: explicit_loop h k c2 m

/-- Function `generate_explicit_euler h k C0 t_max` (lines 71–85): returns the pair
of the time array `np.linspace 0 t_max n_steps` and the value array
`C[0] = C0` followed by the loop entries. -/
def generate_explicit_euler (h k C0 t_max : ℚ) : List ℚ × List (Option ℚ) :=
  let n := n_steps h t_max
  (linspace 0 t_max n, some C0 :: explicit_loop h k C0 (n - 1))

/-- The loop of `generate_implicit_euler` (lines 94–95), producing entries
`C[1] … C[steps]` with `C[i+1] = C[i] / (1 + h·k)`; no marker is ever
written. -/
def implicit_loop (h k : ℚ) : ℚ → ℕ → List (Option ℚ)
  | _, 0 => []
  | c, m + 1 =>
      let c2 := c / (1 + h * k)
      some c2 :: implicit_loop h k c2 m

/-- Function `generate_implicit_euler h k C0 t_max` (lines 87–97). -/
def generate_implicit_euler (h k C0 t_max : ℚ) : List ℚ × List (Option ℚ) :=
  let n := n_steps h t_max
  (linspace 0 t_max n, some C0 :: implicit_loop h k C0 (n - 1))

/-- The two numerical methods selectable in the app. -/
inductive Method
  | explicitEuler
  | implicitEuler
deriving DecidableEq

/-- Stability tiers reported by the stability-analysis column. -/
inductive StabilityTier
  | stable
  | nearLimit
  | unstable
  | unconditionallyStable
deriving DecidableEq

/-- Critical step size `critical_h = 2 / k` (line 142). -/
def critical_h (k : ℚ) : ℚ := 2 / k

/-- Stability classification (lines 243–279): for the explicit method,
`h > critical_h` → unstable, else `h > critical_h * 0.8` → near-limit,
else stable; the implicit method is always reported unconditionally
stable. -/
def classify_stability (method : Method) (h k : ℚ) : StabilityTier :=
  match method with
  | Method.explicitEuler =>
      if critical_h k < h then StabilityTier.unstable
      else if critical_h k * (8 / 10) < h then StabilityTier.nearLimit
      else StabilityTier.stable
  | Method.implicitEuler => StabilityTier.unconditionallyStable

/-- Accuracy tiers of the accuracy-analysis column. -/
inductive AccuracyTier
  | excellent
  | good
  | poor
deriving DecidableEq

/-- Error `abs (numerical_final - analytical_final)` (lines 195–198):
`none` models the infinite error obtained when the numerical final value
is `nan` and is replaced by `float('inf')`. -/
def final_error (numerical_final : Option ℚ) (analytical_final : ℚ) : Option ℚ :=
  match numerical_final with
  | none => none
  | some v => some |v - analytical_final|

/-- Comparison `e < bound` on the extended error value, where `none` stands for the
infinite error: every comparison with a finite bound is false. -/
def errLt (e : Option ℚ) (bound : ℚ) : Bool :=
  match e with
  | none => false
  | some x => decide (x < bound)

/-- Accuracy classification (lines 202–229): error `< 0.01` → excellent,
else `< 0.1` → good, else poor; an undefined (infinite) error falls
through to poor. -/
def classify_accuracy (numerical_final : Option ℚ) (analytical_final : ℚ) :
    AccuracyTier :=
  let e := final_error numerical_final analytical_final
  if errLt e (1 / 100) then AccuracyTier.excellent
  else if errLt e (1 / 10) then AccuracyTier.good
  else AccuracyTier.poor

-- sanity checks on concrete inputs
example : n_steps 3 10 = 4 := by
  have hfl : ⌊(10 : ℚ) / 3⌋ = 3 := by rw [Int.floor_eq_iff] ; norm_num
  simp [n_steps, hfl]
example : (generate_explicit_euler 1 (1 / 2) 4 2).2 =
    [some 4, some 2, some 1] := by
  have hn : n_steps 1 2 = 3 := by
    have hfl : ⌊(2 : ℚ) / 1⌋ = 2 := by rw [Int.floor_eq_iff] ; norm_num
    simp [n_steps, hfl]
  norm_num [generate_explicit_euler, hn, explicit_loop, abs]
example : classify_stability Method.explicitEuler 4 (1 / 2) =
    StabilityTier.nearLimit := by
  norm_num [classify_stability, critical_h]

/-! ### Basic shape lemmas -/

theorem linspace_length (a b : ℚ) (num : ℕ) : (linspace a b num).length = num := by
  by_cases h0 : num = 0
  · simp [linspace, h0]
  · by_cases h1 : num = 1
    · simp [linspace, h0, h1]
    · simp [linspace, h0, h1]

theorem linspace_getElem (a b : ℚ) (num i : ℕ) (h2 : 2 ≤ num) (hi : i < num) :
    (linspace a b num)[i]? = some (a + (i : ℚ) * ((b - a) / ((num : ℚ) - 1))) := by
  have h0 : num ≠ 0 := by omega
  have h1 : num ≠ 1 := by omega
  simp [linspace, h0, h1, List.getElem?_map, List.getElem?_range, hi]

theorem explicit_loop_zero (h k c : ℚ) : explicit_loop h k c 0 = [] := rfl

theorem explicit_loop_succ (h k c : ℚ) (m : ℕ) :
    explicit_loop h k c (m + 1)
      = if 1000 < |c + h * (-k * c)|
        then List.replicate (m + 1) (none : Option ℚ)
        else some (c + h * (-k * c)) :: explicit_loop h k (c + h * (-k * c)) m := rfl

theorem implicit_loop_zero (h k c : ℚ) : implicit_loop h k c 0 = [] := rfl

theorem implicit_loop_succ (h k c : ℚ) (m : ℕ) :
    implicit_loop h k c (m + 1)
      = some (c / (1 + h * k)) :: implicit_loop h k (c / (1 + h * k)) m := rfl

theorem explicit_loop_length (h k c : ℚ) (m : ℕ) :
    (explicit_loop h k c m).length = m := by
  induction m generalizing c with
  | zero => rfl
  | succ m ih =>
    rw [explicit_loop]
    split
    · simp
    · simp [ih]

theorem implicit_loop_length (h k c : ℚ) (m : ℕ) :
    (implicit_loop h k c m).length = m := by
  induction m generalizing c with
  | zero => rfl
  | succ m ih => rw [implicit_loop] ; simp [ih]

/-! ### Structure of the explicit loop

The explicit loop output always consists of a defined prefix holding the
exact Euler iterates `c·(1 - h·k)^(j+1)` (each within the safety
threshold), followed by a `none` tail; the tail is nonempty exactly when
some iterate crossed the threshold, and the first iterate after the
defined prefix is the crossing one. -/

theorem explicit_loop_structure (h k : ℚ) (m : ℕ) (c : ℚ) :
    ∃ d, d ≤ m ∧
      explicit_loop h k c m
        = ((List.range d).map fun j => some (c * (1 - h * k) ^ (j + 1)))
            ++ List.replicate (m - d) (none : Option ℚ)
      ∧ (∀ j, j < d → |c * (1 - h * k) ^ (j + 1)| ≤ 1000)
      ∧ (d < m → 1000 < |c * (1 - h * k) ^ (d + 1)|) := by
  induction m generalizing c with
  | zero =>
    exact ⟨0, le_rfl, by simp [explicit_loop_zero], fun j hj => absurd hj (Nat.not_lt_zero j),
      fun hd => absurd hd (Nat.not_lt_zero 0)⟩
  | succ m ih =>
    have hc2 : c + h * (-k * c) = c * (1 - h * k) := by ring
    by_cases hgt : 1000 < |c + h * (-k * c)|
    · refine ⟨0, Nat.zero_le _, ?_, fun j hj => absurd hj (Nat.not_lt_zero j), fun _ => ?_⟩
      · rw [explicit_loop_succ, if_pos hgt] ; simp
      · rw [pow_one, ← hc2] ; exact hgt
    · obtain ⟨d, hdm, heq, hb, ht⟩ := ih (c + h * (-k * c))
      have hpow : ∀ j : ℕ, (c + h * (-k * c)) * (1 - h * k) ^ (j + 1)
          = c * (1 - h * k) ^ (j + 1 + 1) := by
        intro j ; rw [hc2] ; ring
      have hfun : (fun j : ℕ => some ((c + h * (-k * c)) * (1 - h * k) ^ (j + 1)))
          = ((fun j : ℕ => some (c * (1 - h * k) ^ (j + 1))) ∘ Nat.succ) := by
        funext j
        simp only [Function.comp_apply]
        rw [hpow j]
      refine ⟨d + 1, Nat.succ_le_succ hdm, ?_, ?_, ?_⟩
      · rw [explicit_loop_succ, if_neg hgt, heq, List.range_succ_eq_map, List.map_cons,
          List.map_map, Nat.succ_sub_succ, List.cons_append, hfun]
        congr 2
        rw [pow_one, hc2]
      · intro j hj
        cases j with
        | zero =>
          rw [pow_one, ← hc2]
          exact le_of_not_lt hgt
        | succ j =>
          have hb2 := hb j (Nat.lt_of_succ_lt_succ hj)
          rw [hpow j] at hb2
          exact hb2
      · intro hdm2
        have ht2 := ht (Nat.lt_of_succ_lt_succ hdm2)
        rw [hpow d] at ht2
        exact ht2

theorem explicit_loop_getElem_some (h k c : ℚ) (m i : ℕ) (u : ℚ)
    (hu : (explicit_loop h k c m)[i]? = some (some u)) :
    u = c * (1 - h * k) ^ (i + 1) ∧ |u| ≤ 1000 := by
  obtain ⟨d, hdm, heq, hb, ht⟩ := explicit_loop_structure h k m c
  rw [heq] at hu
  by_cases hid : i < d
  · rw [List.getElem?_append_left (by simpa using hid)] at hu
    rw [List.getElem?_map, List.getElem?_range hid] at hu
    simp only [Option.map_some', Option.some.injEq] at hu
    refine ⟨hu.symm, ?_⟩
    rw [← hu]
    exact hb i hid
  · exfalso
    rw [List.getElem?_append_right (by simpa using Nat.le_of_not_lt hid)] at hu
    rw [List.getElem?_replicate] at hu
    split at hu
    · exact Option.noConfusion (Option.some.inj hu)
    · exact Option.noConfusion hu

theorem explicit_loop_none_tail (h k c : ℚ) (m i : ℕ)
    (hi : (explicit_loop h k c m)[i]? = some none) :
    ∀ j, i ≤ j → j < m → (explicit_loop h k c m)[j]? = some none := by
  obtain ⟨d, hdm, heq, hb, ht⟩ := explicit_loop_structure h k m c
  have hdi : d ≤ i := by
    by_contra hlt
    push_neg at hlt
    rw [heq, List.getElem?_append_left (by simpa using hlt), List.getElem?_map,
      List.getElem?_range hlt] at hi
    simp at hi
  intro j hij hjm
  rw [heq, List.getElem?_append_right (by simpa using le_trans hdi hij),
    List.getElem?_replicate, if_pos (by simp ; omega)]

theorem explicit_loop_mem_none (h k c : ℚ) (m j : ℕ) (hj : j < m)
    (hex : 1000 < |c * (1 - h * k) ^ (j + 1)|) :
    (none : Option ℚ) ∈ explicit_loop h k c m := by
  obtain ⟨d, hdm, heq, hb, ht⟩ := explicit_loop_structure h k m c
  have hdj : d ≤ j := by
    by_contra h2
    push_neg at h2
    exact absurd (hb j h2) (not_le.mpr hex)
  rw [heq]
  refine List.mem_append.mpr (Or.inr ?_)
  exact List.mem_replicate.mpr ⟨by omega, rfl⟩

theorem explicit_loop_no_none (h k c : ℚ) (m : ℕ)
    (hstep : ∀ j, j < m → |c * (1 - h * k) ^ (j + 1)| ≤ 1000) :
    ∀ x ∈ explicit_loop h k c m, x ≠ none := by
  obtain ⟨d, hdm, heq, hb, ht⟩ := explicit_loop_structure h k m c
  have hdm2 : d = m := by
    by_contra hne
    have hlt : d < m := lt_of_le_of_ne hdm hne
    exact absurd (hstep d hlt) (not_le.mpr (ht hlt))
  rw [heq, hdm2]
  simp

theorem implicit_loop_eq (h k c : ℚ) (m : ℕ) :
    implicit_loop h k c m
      = (List.range m).map fun j : ℕ => some (c / (1 + h * k) ^ (j + 1)) := by
  induction m generalizing c with
  | zero => rfl
  | succ m ih =>
    rw [implicit_loop_succ, ih, List.range_succ_eq_map, List.map_cons, List.map_map]
    congr 1
    · rw [pow_one]
    · congr 1
      funext j
      simp only [Function.comp_apply, Option.some.injEq, Nat.succ_eq_add_one]
      rw [div_div, ← pow_succ']

theorem implicit_loop_getElem (h k c : ℚ) (m i : ℕ) (hi : i < m) :
    (implicit_loop h k c m)[i]? = some (some (c / (1 + h * k) ^ (i + 1))) := by
  rw [implicit_loop_eq]
  simp [List.getElem?_map, List.getElem?_range, hi]

/-! ### The generated trajectories -/

theorem gen_explicit_C_def (h k C0 t_max : ℚ) :
    (generate_explicit_euler h k C0 t_max).2
      = some C0 :: explicit_loop h k C0 (n_steps h t_max - 1) := rfl

theorem gen_implicit_C_def (h k C0 t_max : ℚ) :
    (generate_implicit_euler h k C0 t_max).2
      = some C0 :: implicit_loop h k C0 (n_steps h t_max - 1) := rfl

theorem n_steps_pos (h t_max : ℚ) : 1 ≤ n_steps h t_max :=
  Nat.le_add_left 1 _

theorem gen_explicit_C_length (h k C0 t_max : ℚ) :
    (generate_explicit_euler h k C0 t_max).2.length = n_steps h t_max := by
  rw [gen_explicit_C_def, List.length_cons, explicit_loop_length]
  have := n_steps_pos h t_max
  omega

theorem gen_implicit_C_length (h k C0 t_max : ℚ) :
    (generate_implicit_euler h k C0 t_max).2.length = n_steps h t_max := by
  rw [gen_implicit_C_def, List.length_cons, implicit_loop_length]
  have := n_steps_pos h t_max
  omega

/-- Every defined value of the explicit trajectory is the exact Euler
iterate `C0·(1 - h·k)^i`. -/
theorem gen_explicit_value (h k C0 t_max : ℚ) (i : ℕ) (u : ℚ)
    (hu : (generate_explicit_euler h k C0 t_max).2[i]? = some (some u)) :
    u = C0 * (1 - h * k) ^ i := by
  cases i with
  | zero =>
    rw [gen_explicit_C_def, List.getElem?_cons_zero] at hu
    simp only [Option.some.injEq] at hu
    rw [← hu, pow_zero, mul_one]
  | succ i =>
    rw [gen_explicit_C_def, List.getElem?_cons_succ] at hu
    exact (explicit_loop_getElem_some h k C0 _ i u hu).1

/-- Closed form of every entry of the implicit trajectory. -/
theorem gen_implicit_getElem (h k C0 t_max : ℚ) (i : ℕ) (hi : i < n_steps h t_max) :
    (generate_implicit_euler h k C0 t_max).2[i]?
      = some (some (C0 / (1 + h * k) ^ i)) := by
  cases i with
  | zero =>
    rw [gen_implicit_C_def, List.getElem?_cons_zero, pow_zero, div_one]
  | succ i =>
    rw [gen_implicit_C_def, List.getElem?_cons_succ]
    exact implicit_loop_getElem h k C0 _ i (by have := n_steps_pos h t_max ; omega)

/-! ### Claims -/

/-- Claim C1, counterexample: with `h = 3`, `k = 1/2`, `C0 = 4`, `t_max = 10`
(all positive), the trajectory has `n = 4` time points but the spacing
between the first two is `10/3`, not the step size `h = 3` the claim
requires. -/
theorem C1_counterexample :
    (0 : ℚ) < 3 ∧ (0 : ℚ) < 1 / 2 ∧ (0 : ℚ) < 10
    ∧ (generate_explicit_euler 3 (1 / 2) 4 10).1[0]? = some 0
    ∧ (generate_explicit_euler 3 (1 / 2) 4 10).1[1]? = some (10 / 3)
    ∧ (10 : ℚ) / 3 - 0 ≠ 3 := by
  have hfl : ⌊(10 : ℚ) / 3⌋ = 3 := by rw [Int.floor_eq_iff] ; norm_num
  have hn : n_steps 3 10 = 4 := by simp [n_steps, hfl]
  have hts : (generate_explicit_euler 3 (1 / 2) 4 10).1 = [0, 10 / 3, 20 / 3, 10] := by
    show linspace 0 10 (n_steps 3 10) = _
    rw [hn]
    norm_num [linspace, List.range_succ]
  refine ⟨by norm_num, by norm_num, by norm_num, ?_, ?_, by norm_num⟩
  · rw [hts] ; rfl
  · rw [hts] ; rfl

/-- Claim C1, amended: for every `h > 0`, `k > 0`, `t_max > 0` and any `C0`,
the explicit integrator returns a trajectory with exactly
`n = ⌊t_max/h⌋ + 1` uniformly spaced time points from `0` to `t_max` with
spacing `t_max/(n-1)` between consecutive points (this equals `h` exactly
when `h` divides `t_max`, but not in general), and (absent divergence
marking) its values satisfy `C_0 = C0` and `C_{i+1} = C_i·(1 - h·k)`. -/
theorem C1_theorem (h k C0 t_max : ℚ) (hh : 0 < h) (hk : 0 < k) (htm : 0 < t_max) :
    (generate_explicit_euler h k C0 t_max).1.length = n_steps h t_max
    ∧ (generate_explicit_euler h k C0 t_max).2.length = n_steps h t_max
    ∧ (∀ i : ℕ, i < n_steps h t_max → 2 ≤ n_steps h t_max →
        (generate_explicit_euler h k C0 t_max).1[i]?
          = some ((i : ℚ) * (t_max / ((n_steps h t_max : ℚ) - 1))))
    ∧ (generate_explicit_euler h k C0 t_max).1[0]? = some 0
    ∧ (2 ≤ n_steps h t_max →
        (generate_explicit_euler h k C0 t_max).1[n_steps h t_max - 1]? = some t_max)
    ∧ (generate_explicit_euler h k C0 t_max).2[0]? = some (some C0)
    ∧ (∀ (i : ℕ) (u v : ℚ),
        (generate_explicit_euler h k C0 t_max).2[i]? = some (some u) →
        (generate_explicit_euler h k C0 t_max).2[i + 1]? = some (some v) →
        v = u * (1 - h * k)) := by
  have hget : ∀ i : ℕ, i < n_steps h t_max → 2 ≤ n_steps h t_max →
      (generate_explicit_euler h k C0 t_max).1[i]?
        = some ((i : ℚ) * (t_max / ((n_steps h t_max : ℚ) - 1))) := by
    intro i hi h2
    show (linspace 0 t_max (n_steps h t_max))[i]? = _
    rw [linspace_getElem 0 t_max _ i h2 hi]
    norm_num
  refine ⟨show (linspace 0 t_max (n_steps h t_max)).length = n_steps h t_max from
      linspace_length 0 t_max _,
    gen_explicit_C_length h k C0 t_max, hget, ?_, ?_, ?_, ?_⟩
  · by_cases h2 : 2 ≤ n_steps h t_max
    · rw [hget 0 (by omega) h2] ; norm_num
    · have h1 : n_steps h t_max = 1 := by have := n_steps_pos h t_max ; omega
      show (linspace 0 t_max (n_steps h t_max))[0]? = _
      rw [h1]
      rfl
  · intro h2
    rw [hget (n_steps h t_max - 1) (by omega) h2]
    have hcast : ((n_steps h t_max - 1 : ℕ) : ℚ) = (n_steps h t_max : ℚ) - 1 := by
      have := n_steps_pos h t_max
      push_cast [Nat.cast_sub this]
      ring
    have hne : (n_steps h t_max : ℚ) - 1 ≠ 0 := by
      have : (2 : ℚ) ≤ (n_steps h t_max : ℚ) := by exact_mod_cast h2
      linarith
    rw [hcast, mul_div_cancel₀ t_max hne]
  · rw [gen_explicit_C_def, List.getElem?_cons_zero]
  · intro i u v hu hv
    have h1 := gen_explicit_value h k C0 t_max i u hu
    have h2 := gen_explicit_value h k C0 t_max (i + 1) v hv
    rw [h1, h2, pow_succ]
    ring

/-- Claim C1, witness for the amended theorem at `h = 2`, `k = 1/2`,
`C0 = 4`, `t_max = 10`. -/
theorem C1_witness :
    (0 : ℚ) < 2 ∧ (0 : ℚ) < 1 / 2 ∧ (0 : ℚ) < 10
    ∧ ((generate_explicit_euler 2 (1 / 2) 4 10).1.length = n_steps 2 10
    ∧ (generate_explicit_euler 2 (1 / 2) 4 10).2.length = n_steps 2 10
    ∧ (∀ i : ℕ, i < n_steps 2 10 → 2 ≤ n_steps 2 10 →
        (generate_explicit_euler 2 (1 / 2) 4 10).1[i]?
          = some ((i : ℚ) * (10 / ((n_steps 2 10 : ℚ) - 1))))
    ∧ (generate_explicit_euler 2 (1 / 2) 4 10).1[0]? = some 0
    ∧ (2 ≤ n_steps 2 10 →
        (generate_explicit_euler 2 (1 / 2) 4 10).1[n_steps 2 10 - 1]? = some 10)
    ∧ (generate_explicit_euler 2 (1 / 2) 4 10).2[0]? = some (some 4)
    ∧ (∀ (i : ℕ) (u v : ℚ),
        (generate_explicit_euler 2 (1 / 2) 4 10).2[i]? = some (some u) →
        (generate_explicit_euler 2 (1 / 2) 4 10).2[i + 1]? = some (some v) →
        v = u * (1 - 2 * (1 / 2)))) :=
  ⟨by norm_num, by norm_num, by norm_num,
    C1_theorem 2 (1 / 2) 4 10 (by norm_num) (by norm_num) (by norm_num)⟩

/-- Claim C2: in the explicit integrator, whenever a defined value `u` sits
at index `i` and the next computed value `u·(1 - h·k)` has magnitude above
1000, every entry of the trajectory after index `i` is the undefined
marker. -/
theorem C2_theorem (h k C0 t_max : ℚ) (hh : 0 < h) (hk : 0 < k) (htm : 0 < t_max) :
    ∀ (i : ℕ) (u : ℚ),
      (generate_explicit_euler h k C0 t_max).2[i]? = some (some u) →
      1000 < |u * (1 - h * k)| →
      ∀ j : ℕ, i < j → j < n_steps h t_max →
        (generate_explicit_euler h k C0 t_max).2[j]? = some none := by
  intro i u hu htrig j hij hjn
  obtain ⟨d, hdm, heq, hb, ht⟩ := explicit_loop_structure h k (n_steps h t_max - 1) C0
  have hu2 : u = C0 * (1 - h * k) ^ i := gen_explicit_value h k C0 t_max i u hu
  have htrig2 : 1000 < |C0 * (1 - h * k) ^ (i + 1)| := by
    have : u * (1 - h * k) = C0 * (1 - h * k) ^ (i + 1) := by
      rw [hu2, pow_succ] ; ring
    rwa [this] at htrig
  have hdi : d ≤ i := by
    by_contra hlt
    push_neg at hlt
    exact absurd (hb i hlt) (not_le.mpr htrig2)
  obtain ⟨j2, rfl⟩ : ∃ j2, j = j2 + 1 := ⟨j - 1, by omega⟩
  rw [gen_explicit_C_def, List.getElem?_cons_succ, heq,
    List.getElem?_append_right (by simp ; omega), List.getElem?_replicate,
    if_pos (by simp ; have := n_steps_pos h t_max ; omega)]

/-- Claim C2, witness at `h = 3`, `k = 1`, `C0 = 400`, `t_max = 10`: the
trajectory is `[400, -800, none, none]`, the value `-800` at index 1
triggers the threshold (`|-800·(1-3)| = 1600 > 1000`), and the theorem
yields the marker at index 2. -/
theorem C2_witness :
    (0 : ℚ) < 3 ∧ (0 : ℚ) < 1 ∧ (0 : ℚ) < 10
    ∧ (generate_explicit_euler 3 1 400 10).2[1]? = some (some (-800 : ℚ))
    ∧ 1000 < |(-800 : ℚ) * (1 - 3 * 1)|
    ∧ 1 < 2 ∧ 2 < n_steps 3 10
    ∧ (generate_explicit_euler 3 1 400 10).2[2]? = some none := by
  have hfl : ⌊(10 : ℚ) / 3⌋ = 3 := by rw [Int.floor_eq_iff] ; norm_num
  have hn : n_steps 3 10 = 4 := by simp [n_steps, hfl]
  have hC : (generate_explicit_euler 3 1 400 10).2
      = [some 400, some (-800), none, none] := by
    rw [gen_explicit_C_def, hn]
    norm_num [explicit_loop, abs, List.replicate]
  have h1 : (generate_explicit_euler 3 1 400 10).2[1]? = some (some (-800 : ℚ)) := by
    rw [hC] ; rfl
  have htr : (1000 : ℚ) < |(-800 : ℚ) * (1 - 3 * 1)| := by norm_num [abs]
  have hj2 : 2 < n_steps 3 10 := by rw [hn] ; norm_num
  exact ⟨by norm_num, by norm_num, by norm_num, h1, htr, by norm_num, hj2,
    C2_theorem 3 1 400 10 (by norm_num) (by norm_num) (by norm_num)
      1 (-800) h1 htr 2 (by norm_num) hj2⟩

/-- Claim C3: the implicit integrator starts from `C0`, satisfies
`C_{i+1} = C_i / (1 + h·k)` with `|C_{i+1}| ≤ |C_i|` for consecutive
entries, and its trajectory never contains the undefined marker. -/
theorem C3_theorem (h k C0 t_max : ℚ) (hh : 0 < h) (hk : 0 < k) :
    (generate_implicit_euler h k C0 t_max).2[0]? = some (some C0)
    ∧ (∀ (i : ℕ) (u v : ℚ),
        (generate_implicit_euler h k C0 t_max).2[i]? = some (some u) →
        (generate_implicit_euler h k C0 t_max).2[i + 1]? = some (some v) →
        v = u / (1 + h * k) ∧ |v| ≤ |u|)
    ∧ (∀ x ∈ (generate_implicit_euler h k C0 t_max).2, x ≠ none) := by
  have hk1 : (1 : ℚ) ≤ 1 + h * k := by nlinarith
  refine ⟨?_, ?_, ?_⟩
  · rw [gen_implicit_C_def, List.getElem?_cons_zero]
  · intro i u v hu hv
    have hilen : i + 1 < n_steps h t_max := by
      by_contra hge
      push_neg at hge
      rw [List.getElem?_eq_none (by rw [gen_implicit_C_length] ; omega)] at hv
      exact Option.noConfusion hv
    have hu2 := gen_implicit_getElem h k C0 t_max i (by omega)
    have hv2 := gen_implicit_getElem h k C0 t_max (i + 1) hilen
    rw [hu] at hu2
    rw [hv] at hv2
    have hu3 : u = C0 / (1 + h * k) ^ i := by
      simpa using hu2
    have hv3 : v = C0 / (1 + h * k) ^ (i + 1) := by
      simpa using hv2
    have hvu : v = u / (1 + h * k) := by
      rw [hu3, hv3, div_div, ← pow_succ]
    refine ⟨hvu, ?_⟩
    rw [hvu, abs_div, abs_of_pos (by linarith : (0 : ℚ) < 1 + h * k)]
    exact div_le_self (abs_nonneg u) hk1
  · intro x hx
    rw [gen_implicit_C_def] at hx
    rcases List.mem_cons.mp hx with hx0 | hxl
    · rw [hx0] ; exact Option.noConfusion
    · rw [implicit_loop_eq] at hxl
      obtain ⟨j, _, hj⟩ := List.mem_map.mp hxl
      rw [← hj]
      exact Option.noConfusion

/-- Claim C3, witness at `h = 1`, `k = 1`, `C0 = 4`, `t_max = 2`. -/
theorem C3_witness :
    (0 : ℚ) < 1 ∧ (0 : ℚ) < 1
    ∧ ((generate_implicit_euler 1 1 4 2).2[0]? = some (some 4)
    ∧ (∀ (i : ℕ) (u v : ℚ),
        (generate_implicit_euler 1 1 4 2).2[i]? = some (some u) →
        (generate_implicit_euler 1 1 4 2).2[i + 1]? = some (some v) →
        v = u / (1 + 1 * 1) ∧ |v| ≤ |u|)
    ∧ (∀ x ∈ (generate_implicit_euler 1 1 4 2).2, x ≠ none)) :=
  ⟨by norm_num, by norm_num, C3_theorem 1 1 4 2 (by norm_num) (by norm_num)⟩

/-- Claim C4: for `h > 0`, `k > 0` the explicit stability classification is
"unstable" iff `h > 2/k`, "near-limit" iff `h ≤ 2/k` and `h > 0.8·(2/k)`,
and "stable" otherwise; the implicit method always classifies
"unconditionally-stable". -/
theorem C4_theorem (h k : ℚ) (hh : 0 < h) (hk : 0 < k) :
    (classify_stability Method.explicitEuler h k = StabilityTier.unstable ↔ 2 / k < h)
    ∧ (classify_stability Method.explicitEuler h k = StabilityTier.nearLimit
        ↔ h ≤ 2 / k ∧ (8 / 10) * (2 / k) < h)
    ∧ (classify_stability Method.explicitEuler h k = StabilityTier.stable
        ↔ ¬(2 / k < h) ∧ ¬(h ≤ 2 / k ∧ (8 / 10) * (2 / k) < h))
    ∧ classify_stability Method.implicitEuler h k = StabilityTier.unconditionallyStable := by
  unfold classify_stability critical_h
  split_ifs with h1 h2
  · exact ⟨iff_of_true rfl h1,
      iff_of_false (by simp) (fun hc => absurd h1 (not_lt.mpr hc.1)),
      iff_of_false (by simp) (fun hc => hc.1 h1), rfl⟩
  · exact ⟨iff_of_false (by simp) h1,
      iff_of_true rfl ⟨le_of_not_lt h1, by linarith⟩,
      iff_of_false (by simp) (fun hc => hc.2 ⟨le_of_not_lt h1, by linarith⟩), rfl⟩
  · exact ⟨iff_of_false (by simp) h1,
      iff_of_false (by simp) (fun hc => h2 (by linarith [hc.2])),
      iff_of_true rfl ⟨h1, fun hc => h2 (by linarith [hc.2])⟩, rfl⟩

/-- Claim C4, witness at `h = 1`, `k = 1`. -/
theorem C4_witness :
    (0 : ℚ) < 1
    ∧ ((classify_stability Method.explicitEuler 1 1 = StabilityTier.unstable
        ↔ (2 : ℚ) / 1 < 1)
    ∧ (classify_stability Method.explicitEuler 1 1 = StabilityTier.nearLimit
        ↔ (1 : ℚ) ≤ 2 / 1 ∧ (8 : ℚ) / 10 * (2 / 1) < 1)
    ∧ (classify_stability Method.explicitEuler 1 1 = StabilityTier.stable
        ↔ ¬((2 : ℚ) / 1 < 1) ∧ ¬((1 : ℚ) ≤ 2 / 1 ∧ (8 : ℚ) / 10 * (2 / 1) < 1))
    ∧ classify_stability Method.implicitEuler 1 1 = StabilityTier.unconditionallyStable) :=
  ⟨by norm_num, C4_theorem 1 1 (by norm_num) (by norm_num)⟩

/-- Claim C5: with `e = |numerical_final − analytical_final|`, the accuracy
classification is "excellent" iff `e < 0.01`, "good" iff
`0.01 ≤ e < 0.1`, "poor" iff `e ≥ 0.1`; an undefined numerical final
value (infinite error) classifies "poor". -/
theorem C5_theorem (a : ℚ) :
    classify_accuracy none a = AccuracyTier.poor
    ∧ (∀ v : ℚ, classify_accuracy (some v) a = AccuracyTier.excellent
        ↔ |v - a| < 1 / 100)
    ∧ (∀ v : ℚ, classify_accuracy (some v) a = AccuracyTier.good
        ↔ 1 / 100 ≤ |v - a| ∧ |v - a| < 1 / 10)
    ∧ (∀ v : ℚ, classify_accuracy (some v) a = AccuracyTier.poor
        ↔ 1 / 10 ≤ |v - a|) := by
  have hch : ∀ v : ℚ, classify_accuracy (some v) a
      = (if |v - a| < 1 / 100 then AccuracyTier.excellent
         else if |v - a| < 1 / 10 then AccuracyTier.good else AccuracyTier.poor) := by
    intro v
    unfold classify_accuracy final_error errLt
    simp [decide_eq_true_eq]
  refine ⟨rfl, fun v => ?_, fun v => ?_, fun v => ?_⟩
  · rw [hch v]
    split_ifs with h1 h2
    · exact iff_of_true rfl h1
    · exact iff_of_false (by simp) h1
    · exact iff_of_false (by simp) h1
  · rw [hch v]
    split_ifs with h1 h2
    · exact iff_of_false (by simp) (fun hc => absurd h1 (not_lt.mpr hc.1))
    · exact iff_of_true rfl ⟨not_lt.mp h1, h2⟩
    · exact iff_of_false (by simp) (fun hc => h2 hc.2)
  · rw [hch v]
    split_ifs with h1 h2
    · exact iff_of_false (by simp) (fun hc => by linarith)
    · exact iff_of_false (by simp) (fun hc => absurd h2 (not_lt.mpr hc))
    · exact iff_of_true rfl (not_lt.mp h2)

/-- Claim C6, counterexample: with `k = 0.5` (so `h_critical = 4`), the code
classifies `h = 4.0` as near-limit (since `4 > 0.8·4 = 3.2`), not
"stable" as the claim asserts. -/
theorem C6_counterexample :
    classify_stability Method.explicitEuler 4 (1 / 2) ≠ StabilityTier.stable := by
  have hcl : classify_stability Method.explicitEuler 4 (1 / 2)
      = StabilityTier.nearLimit := by
    norm_num [classify_stability, critical_h]
  rw [hcl]
  simp

/-- Claim C6, amended: for `k = 0.5` (so `h_critical = 4.0`), the
explicit-method stability classification of `h = 4.0` exactly is
"near-limit" (the boundary is not exceeded, but `h > 0.8·h_critical`),
that of `h = 4.01` is "unstable", and that of `h = 3.3` is
"near-limit". -/
theorem C6_theorem :
    classify_stability Method.explicitEuler 4 (1 / 2) = StabilityTier.nearLimit
    ∧ classify_stability Method.explicitEuler (401 / 100) (1 / 2) = StabilityTier.unstable
    ∧ classify_stability Method.explicitEuler (33 / 10) (1 / 2) = StabilityTier.nearLimit := by
  refine ⟨?_, ?_, ?_⟩
  all_goals norm_num [classify_stability, critical_h]

/-- Claim C7, counterexample, falsifying each universally claimed part at
a concrete input. (i) With `k = 1`, `t_max = 2`, `C0 = 4000` and
`h = 1/2 < 2/k`, the trajectory contains an undefined marker (the first
computed value, `2000`, exceeds the threshold), so "for every
0 < h < 2/k the trajectory never contains an undefined marker" fails.
(ii) With `k = 1`, `t_max = 10`, `C0 = 4` and `h = 3 > 2/k`, the
trajectory `[4, -8, 16, -32]` contains no undefined marker, so "the
safety threshold is eventually exceeded, producing an undefined-marked
tail" fails. (iii) With the same `h = 3 > 2/k` and `C0 = 0`, consecutive
values `0, 0` do not strictly increase in magnitude. -/
theorem C7_counterexample :
    ((0 : ℚ) < 1 ∧ (0 : ℚ) < 2 ∧ (0 : ℚ) < 1 / 2 ∧ (1 / 2 : ℚ) < 2 / 1
      ∧ (none : Option ℚ) ∈ (generate_explicit_euler (1 / 2) 1 4000 2).2)
    ∧ ((2 : ℚ) / 1 < 3 ∧ (0 : ℚ) < 10
      ∧ ∀ x ∈ (generate_explicit_euler 3 1 4 10).2, x ≠ none)
    ∧ ((generate_explicit_euler 3 1 0 10).2[0]? = some (some (0 : ℚ))
      ∧ (generate_explicit_euler 3 1 0 10).2[1]? = some (some (0 : ℚ))
      ∧ ¬(|(0 : ℚ)| < |(0 : ℚ)|)) := by
  have hfl2 : ⌊(2 : ℚ) / (1 / 2)⌋ = 4 := by rw [Int.floor_eq_iff] ; norm_num
  have hn2 : n_steps (1 / 2) 2 = 5 := by unfold n_steps ; rw [hfl2] ; rfl
  have hCa : (generate_explicit_euler (1 / 2) 1 4000 2).2
      = some 4000 :: List.replicate 4 none := by
    rw [gen_explicit_C_def, hn2]
    norm_num [explicit_loop, abs]
  have hfl3 : ⌊(10 : ℚ) / 3⌋ = 3 := by rw [Int.floor_eq_iff] ; norm_num
  have hn3 : n_steps 3 10 = 4 := by simp [n_steps, hfl3]
  have hCb : (generate_explicit_euler 3 1 4 10).2
      = [some 4, some (-8), some 16, some (-32)] := by
    rw [gen_explicit_C_def, hn3]
    norm_num [explicit_loop, abs]
  have hCc : (generate_explicit_euler 3 1 0 10).2
      = [some 0, some 0, some 0, some 0] := by
    rw [gen_explicit_C_def, hn3]
    norm_num [explicit_loop, abs]
  refine ⟨⟨by norm_num, by norm_num, by norm_num, by norm_num, ?_⟩,
    ⟨by norm_num, by norm_num, ?_⟩, ?_, ?_, by simp⟩
  · rw [hCa]
    simp
  · intro x hx
    rw [hCb] at hx
    simp only [List.mem_cons, List.not_mem_nil, or_false] at hx
    rcases hx with rfl | rfl | rfl | rfl
    all_goals exact Option.noConfusion
  · rw [hCc] ; rfl
  · rw [hCc] ; rfl

/-- Claim C7, amended: for every `h > 0`, `k > 0`, `t_max > 0` and `C0`:
if `h > 2/k` and `C0 ≠ 0`, the magnitudes of consecutive defined values
strictly increase, and whenever some step index `i` with `i + 1 < n`
satisfies `|C0|·(h·k - 1)^(i+1) > 1000` the trajectory contains an
undefined marker; and for `0 < h < 2/k` with `|C0| ≤ 1000` the trajectory
never contains an undefined marker. -/
theorem C7_theorem (h k C0 t_max : ℚ) (hh : 0 < h) (hk : 0 < k) (htm : 0 < t_max) :
    (2 / k < h → C0 ≠ 0 →
      (∀ (i : ℕ) (u v : ℚ),
          (generate_explicit_euler h k C0 t_max).2[i]? = some (some u) →
          (generate_explicit_euler h k C0 t_max).2[i + 1]? = some (some v) →
          |u| < |v|)
      ∧ (∀ i : ℕ, i + 1 < n_steps h t_max →
          1000 < |C0| * (h * k - 1) ^ (i + 1) →
          (none : Option ℚ) ∈ (generate_explicit_euler h k C0 t_max).2))
    ∧ (h < 2 / k → |C0| ≤ 1000 →
        ∀ x ∈ (generate_explicit_euler h k C0 t_max).2, x ≠ none) := by
  constructor
  · intro hgt hC0
    have hhk : 2 < h * k := by rwa [div_lt_iff₀ hk] at hgt
    have habs : |1 - h * k| = h * k - 1 := by
      rw [abs_of_neg (by linarith : 1 - h * k < 0)] ; ring
    have hm1 : 1 < |1 - h * k| := by rw [habs] ; linarith
    constructor
    · intro i u v hu hv
      have hu2 := gen_explicit_value h k C0 t_max i u hu
      have hv2 := gen_explicit_value h k C0 t_max (i + 1) v hv
      have hvu : v = u * (1 - h * k) := by rw [hu2, hv2, pow_succ] ; ring
      have hm0 : (1 - h * k) ≠ 0 := by
        intro h0
        rw [h0, abs_zero] at hm1
        linarith
      have hu0 : u ≠ 0 := by
        rw [hu2]
        exact mul_ne_zero hC0 (pow_ne_zero i hm0)
      calc |u| = |u| * 1 := (mul_one _).symm
        _ < |u| * |1 - h * k| := mul_lt_mul_of_pos_left hm1 (abs_pos.mpr hu0)
        _ = |v| := by rw [hvu, abs_mul]
    · intro i hilt hibig
      have hmem : (none : Option ℚ) ∈ explicit_loop h k C0 (n_steps h t_max - 1) := by
        apply explicit_loop_mem_none h k C0 _ i (by omega)
        rw [abs_mul, abs_pow, habs]
        exact hibig
      rw [gen_explicit_C_def]
      exact List.mem_cons_of_mem _ hmem
  · intro hlt hb x hx
    have hhk2 : h * k < 2 := by rwa [lt_div_iff₀ hk] at hlt
    have hhk0 : 0 < h * k := mul_pos hh hk
    have habs1 : |1 - h * k| ≤ 1 := by
      rw [abs_le]
      constructor <;> linarith
    rw [gen_explicit_C_def] at hx
    rcases List.mem_cons.mp hx with hx0 | hxl
    · rw [hx0] ; exact Option.noConfusion
    · refine explicit_loop_no_none h k C0 _ ?_ x hxl
      intro j hj
      rw [abs_mul, abs_pow]
      calc |C0| * |1 - h * k| ^ (j + 1)
          ≤ |C0| * 1 :=
            mul_le_mul_of_nonneg_left (pow_le_one₀ (abs_nonneg _) habs1) (abs_nonneg _)
        _ ≤ 1000 := by rw [mul_one] ; exact hb

/-- Claim C7, witness for the amended theorem. At `h = 3`, `k = 1`,
`C0 = 400`, `t_max = 10` (so `h > 2/k`, trajectory
`[400, -800, none, none]`) the theorem yields the strict magnitude growth
`|400| < |-800|` of the consecutive defined pair at indices 0, 1, and the
marker membership from the satisfied reachability condition
`400·2^2 = 1600 > 1000` at step index 1; at `h = 1/2 < 2/k`, `C0 = 4`
it yields that the trajectory element `some 4` is not the marker. -/
theorem C7_witness :
    (0 : ℚ) < 3 ∧ (0 : ℚ) < 1 ∧ (0 : ℚ) < 10
    ∧ (2 : ℚ) / 1 < 3 ∧ (400 : ℚ) ≠ 0
    ∧ (generate_explicit_euler 3 1 400 10).2[0]? = some (some (400 : ℚ))
    ∧ (generate_explicit_euler 3 1 400 10).2[0 + 1]? = some (some (-800 : ℚ))
    ∧ |(400 : ℚ)| < |(-800 : ℚ)|
    ∧ 1 + 1 < n_steps 3 10
    ∧ 1000 < |(400 : ℚ)| * (3 * 1 - 1) ^ (1 + 1)
    ∧ (none : Option ℚ) ∈ (generate_explicit_euler 3 1 400 10).2
    ∧ (0 : ℚ) < 1 / 2 ∧ (1 / 2 : ℚ) < 2 / 1 ∧ |(4 : ℚ)| ≤ 1000
    ∧ (some 4 : Option ℚ) ∈ (generate_explicit_euler (1 / 2) 1 4 10).2
    ∧ (some 4 : Option ℚ) ≠ none := by
  have hfl : ⌊(10 : ℚ) / 3⌋ = 3 := by rw [Int.floor_eq_iff] ; norm_num
  have hn : n_steps 3 10 = 4 := by simp [n_steps, hfl]
  have hC : (generate_explicit_euler 3 1 400 10).2
      = [some 400, some (-800), none, none] := by
    rw [gen_explicit_C_def, hn]
    norm_num [explicit_loop, abs, List.replicate]
  have h0 : (generate_explicit_euler 3 1 400 10).2[0]? = some (some (400 : ℚ)) := by
    rw [hC] ; rfl
  have h1 : (generate_explicit_euler 3 1 400 10).2[0 + 1]? = some (some (-800 : ℚ)) := by
    rw [hC] ; rfl
  have hgt : (2 : ℚ) / 1 < 3 := by norm_num
  have hne : (400 : ℚ) ≠ 0 := by norm_num
  have hth := C7_theorem 3 1 400 10 (by norm_num) (by norm_num) (by norm_num)
  have hA : |(400 : ℚ)| < |(-800 : ℚ)| := (hth.1 hgt hne).1 0 400 (-800) h0 h1
  have hnlt : 1 + 1 < n_steps 3 10 := by rw [hn] ; norm_num
  have hbig : (1000 : ℚ) < |(400 : ℚ)| * (3 * 1 - 1) ^ (1 + 1) := by norm_num [abs]
  have hB : (none : Option ℚ) ∈ (generate_explicit_euler 3 1 400 10).2 :=
    (hth.1 hgt hne).2 1 hnlt hbig
  have hlt : (1 / 2 : ℚ) < 2 / 1 := by norm_num
  have hble : |(4 : ℚ)| ≤ 1000 := by norm_num [abs]
  have hmem : (some 4 : Option ℚ) ∈ (generate_explicit_euler (1 / 2) 1 4 10).2 := by
    rw [gen_explicit_C_def]
    exact List.mem_cons_self _ _
  have hCm : (some 4 : Option ℚ) ≠ none :=
    (C7_theorem (1 / 2) 1 4 10 (by norm_num) (by norm_num) (by norm_num)).2
      hlt hble (some 4) hmem
  exact ⟨by norm_num, by norm_num, by norm_num, hgt, hne, h0, h1, hA, hnlt, hbig, hB,
    by norm_num, hlt, hble, hmem, hCm⟩

/-- Claim C9, counterexample: for the invalid decay rate `k = -1 ≤ 0` (with
valid `h = 1`, `t_max = 2`), the explicit integrator is not rejected: it
runs and returns the full trajectory `[4, 8, 16]`. -/
theorem C9_counterexample :
    (-1 : ℚ) ≤ 0
    ∧ (generate_explicit_euler 1 (-1) 4 2).2 = [some 4, some 8, some 16] := by
  refine ⟨by norm_num, ?_⟩
  have hfl : ⌊(2 : ℚ) / 1⌋ = 2 := by rw [Int.floor_eq_iff] ; norm_num
  have hn : n_steps 1 2 = 3 := by simp [n_steps, hfl]
  rw [gen_explicit_C_def, hn]
  norm_num [explicit_loop, abs]

/-- Claim C9, amended: the core performs no parameter validation. For an
invalid decay rate `k ≤ 0` (with `h > 0`, `t_max > 0`) both integrators
run on the input and return a full-length trajectory starting from `C0`
instead of rejecting it. (In the application the UI makes invalid values
unreachable: the slider confines `h` to `[0.1, 5]` and `k = 0.5`,
`t_max = 10` are fixed.) -/
theorem C9_theorem (h k C0 t_max : ℚ) (hh : 0 < h) (htm : 0 < t_max) (hk : k ≤ 0) :
    (generate_explicit_euler h k C0 t_max).2.length = n_steps h t_max
    ∧ (generate_explicit_euler h k C0 t_max).2[0]? = some (some C0)
    ∧ (generate_implicit_euler h k C0 t_max).2.length = n_steps h t_max
    ∧ (generate_implicit_euler h k C0 t_max).2[0]? = some (some C0) :=
  ⟨gen_explicit_C_length h k C0 t_max,
    by rw [gen_explicit_C_def, List.getElem?_cons_zero],
    gen_implicit_C_length h k C0 t_max,
    by rw [gen_implicit_C_def, List.getElem?_cons_zero]⟩

/-- Claim C9, witness at `h = 1`, `k = -1`, `C0 = 4`, `t_max = 2`. -/
theorem C9_witness :
    (0 : ℚ) < 1 ∧ (0 : ℚ) < 2 ∧ (-1 : ℚ) ≤ 0
    ∧ ((generate_explicit_euler 1 (-1) 4 2).2.length = n_steps 1 2
    ∧ (generate_explicit_euler 1 (-1) 4 2).2[0]? = some (some 4)
    ∧ (generate_implicit_euler 1 (-1) 4 2).2.length = n_steps 1 2
    ∧ (generate_implicit_euler 1 (-1) 4 2).2[0]? = some (some 4)) :=
  ⟨by norm_num, by norm_num, by norm_num,
    C9_theorem 1 (-1) 4 2 (by norm_num) (by norm_num) (by norm_num)⟩

/-- Claim C10: in every explicit trajectory, the initial element is the
unchecked `C0` (for any `C0`, including ones with magnitude above 1000,
as the concrete `C0 = 2000` instance shows), while every defined value at
an index `i ≥ 1` has magnitude at most 1000. -/
theorem C10_theorem (h k C0 t_max : ℚ) :
    (generate_explicit_euler h k C0 t_max).2[0]? = some (some C0)
    ∧ (∀ (i : ℕ) (v : ℚ),
        (generate_explicit_euler h k C0 t_max).2[i + 1]? = some (some v) →
        |v| ≤ 1000)
    ∧ 1000 < |(2000 : ℚ)|
    ∧ (generate_explicit_euler 1 (1 / 2) 2000 10).2[0]? = some (some 2000) := by
  refine ⟨by rw [gen_explicit_C_def, List.getElem?_cons_zero], ?_, by norm_num,
    by rw [gen_explicit_C_def, List.getElem?_cons_zero]⟩
  intro i v hv
  rw [gen_explicit_C_def, List.getElem?_cons_succ] at hv
  exact (explicit_loop_getElem_some h k C0 _ i v hv).2

end OdeDemo
